import Mathlib

/-!
Shallow embedding of the simulation and bookkeeping core of the
Simulated-Stocks-Crypto-Game repository (src/src/App.jsx), together with
theorems settling the specification claims about it.

Conventions:
- JavaScript numbers that carry money or prices are modelled as exact
  rationals (the code performs only field arithmetic on them); quantities
  are integers (the code applies `parseInt`).
- A `parseFloat`/`parseInt` result that would be `NaN` in JavaScript is
  modelled as `none` of an `Option` type; the code's `isNaN` guards become
  `match` on that option.
- React `setX(updated)` calls are modelled by returning an updated state
  record; `alert(msg)` is modelled by returning `some msg` alongside the
  state (and `none` when no alert is shown).
- Randomness (`Math.random()`-derived shocks, sizes, ids) is passed in as
  explicit parameters.
-/

namespace TradingSim

/-- Order side, from the `action` argument of `executeTrade` (the code only
ever invokes it with the strings `'buy'` and `'sell'`). -/
inductive Action where
  | buy
  | sell
deriving DecidableEq

/-- Order type, from `tradingState.orderType` (the UI offers exactly
`market`, `limit`, `stop`). -/
inductive OrderType where
  | market
  | limit
  | stop
deriving DecidableEq

/-- A position record, as stored in `portfolio.positions[symbol]`. -/
structure Position where
  quantity : Int
  averageCost : ℚ
  totalInvested : ℚ
deriving DecidableEq

/-- The fields of a market-data entry that `executeTrade` and the tick's
portfolio update read: `price`, `bid`, `ask` (plus the sector tag used by
event scoping). -/
structure AssetQuote where
  price : ℚ
  bid : ℚ
  ask : ℚ
  sector : String
deriving DecidableEq

/-- The `portfolio` state object: cash, positions map, equity history
(values only; timestamps are presentation data), `totalValue`,
`realizedPnL`. -/
structure Portfolio where
  cash : ℚ
  positions : List (String × Position)
  equityHistory : List ℚ
  totalValue : ℚ
  realizedPnL : ℚ
deriving DecidableEq

/-- The `performanceMetrics` state object (the two fields derived from the
equity curve, `sharpeRatio` and `maxDrawdown`, are computed in a separate
memo and are not touched by `executeTrade`). -/
structure PerformanceMetrics where
  totalTrades : ℕ
  totalProfit : ℚ
  bestTrade : ℚ
  worstTrade : ℚ
  winRate : ℚ
deriving DecidableEq

/-- A trade-history record appended by `executeTrade` (the random `id` and
wall-clock `timestamp` are omitted). -/
structure Trade where
  symbol : String
  action : Action
  quantity : Int
  price : ℚ
deriving DecidableEq

/-- The order-entry fields of `tradingState` that `executeTrade` reads.
`limitPrice`/`stopPrice` hold the `parseFloat` result of the text field
(`none` models `NaN`, i.e. an unparsable price). -/
structure TradingState where
  selectedSymbol : String
  orderType : OrderType
  limitPrice : Option ℚ
  stopPrice : Option ℚ
deriving DecidableEq

/-- The combined state that `executeTrade` reads and writes. -/
structure SimState where
  marketData : List (String × AssetQuote)
  portfolio : Portfolio
  performanceMetrics : PerformanceMetrics
  tradeHistory : List Trade
deriving DecidableEq

/-- `marketData[symbol]` lookup (JS object keyed by symbol, modelled as an
association list). -/
def lookupAsset (sym : String) (md : List (String × AssetQuote)) : Option AssetQuote :=
  (md.find? (fun e => e.1 == sym)).map (fun e => e.2)

/-- `portfolio.positions[symbol]` lookup. -/
def lookupPosition (sym : String) (ps : List (String × Position)) : Option Position :=
  (ps.find? (fun e => e.1 == sym)).map (fun e => e.2)

/-- `{ ...positions, [symbol]: pos }`: replace the binding in place if the
key is present (JS object spread keeps insertion order), else append it. -/
def setPosition (sym : String) (pos : Position) (ps : List (String × Position)) :
    List (String × Position) :=
  if ps.any (fun e => e.1 == sym) then
    ps.map (fun e => if e.1 == sym then (sym, pos) else e)
  else
    ps ++ [(sym, pos)]

/-- `delete newPositions[symbol]`. -/
def removePosition (sym : String) (ps : List (String × Position)) :
    List (String × Position) :=
  ps.filter (fun e => !(e.1 == sym))

/-- The default `{ quantity: 0, averageCost: 0, totalInvested: 0 }` used by
the buy branch when no position exists yet. -/
def emptyPosition : Position := ⟨0, 0, 0⟩

/-- Fill-price determination in `executeTrade`: market orders fill at the
quoted ask (buy) or bid (sell); limit and stop orders fill at the parsed
user-supplied price, `none` when `parseFloat` gave `NaN`. -/
def fillPrice (action : Action) (ts : TradingState) (asset : AssetQuote) : Option ℚ :=
  match ts.orderType with
  | .market => some (match action with | .buy => asset.ask | .sell => asset.bid)
  | .limit => ts.limitPrice
  | .stop => ts.stopPrice

/-- The buy branch of `executeTrade`: reject on `tradeValue > cash`
(alerting "Insufficient funds!"), otherwise debit cash, merge the position
with recomputed weighted average cost, and append a trade record (history
capped via `prev.slice(0, 49)`). -/
def buyBranch (quantity : Int) (ts : TradingState) (st : SimState) (tradePrice : ℚ) :
    SimState × Option String :=
  let tradeValue := tradePrice * (quantity : ℚ)
  if st.portfolio.cash < tradeValue then
    (st, some "Insufficient funds!")
  else
    let currentPosition := (lookupPosition ts.selectedSymbol st.portfolio.positions).getD emptyPosition
    let newQuantity := currentPosition.quantity + quantity
    let newTotalInvested := currentPosition.totalInvested + tradeValue
    let newAverageCost := newTotalInvested / (newQuantity : ℚ)
    ({ st with
        portfolio := { st.portfolio with
          cash := st.portfolio.cash - tradeValue,
          positions := setPosition ts.selectedSymbol
            ⟨newQuantity, newAverageCost, newTotalInvested⟩ st.portfolio.positions },
        tradeHistory :=
          ⟨ts.selectedSymbol, .buy, quantity, tradePrice⟩ :: st.tradeHistory.take 49 },
      none)

/-- The sell branch of `executeTrade`: reject when no position or too few
shares (alerting "Not enough shares to sell!"), otherwise credit cash,
realize profit `(fillPrice − averageCost) × quantity`, shrink or delete the
position, update the performance metrics, and append a trade record. -/
def sellBranch (quantity : Int) (ts : TradingState) (st : SimState) (tradePrice : ℚ) :
    SimState × Option String :=
  let tradeValue := tradePrice * (quantity : ℚ)
  match lookupPosition ts.selectedSymbol st.portfolio.positions with
  | none => (st, some "Not enough shares to sell!")
  | some position =>
    if position.quantity < quantity then
      (st, some "Not enough shares to sell!")
    else
      let profit := (tradePrice - position.averageCost) * (quantity : ℚ)
      let newQuantity := position.quantity - quantity
      let newPositions :=
        if newQuantity = 0 then
          removePosition ts.selectedSymbol st.portfolio.positions
        else
          setPosition ts.selectedSymbol
            { position with
                quantity := newQuantity,
                totalInvested := position.averageCost * (newQuantity : ℚ) }
            st.portfolio.positions
      let pm := st.performanceMetrics
      ({ st with
          portfolio := { st.portfolio with
            cash := st.portfolio.cash + tradeValue,
            positions := newPositions,
            realizedPnL := st.portfolio.realizedPnL + profit },
          performanceMetrics :=
            { totalTrades := pm.totalTrades + 1,
              totalProfit := pm.totalProfit + profit,
              bestTrade := max pm.bestTrade profit,
              worstTrade := min pm.worstTrade profit,
              winRate :=
                if 0 < profit then
                  (pm.winRate * (pm.totalTrades : ℚ) + 1) / ((pm.totalTrades : ℚ) + 1)
                else pm.winRate },
          tradeHistory :=
            ⟨ts.selectedSymbol, .sell, quantity, tradePrice⟩ :: st.tradeHistory.take 49 },
      none)

/-- `executeTrade(action)` for an order whose quantity string parsed to an
actual integer (the `parseInt`-gives-`NaN` path is modelled separately by
`quantityGuardRejects`): silently return on `quantity <= 0`, on an unknown
symbol, and on an unparsable limit/stop price, then dispatch to the buy or
sell branch. The second component is the `alert` message shown, if any. -/
def executeTrade (action : Action) (quantity : Int) (ts : TradingState) (st : SimState) :
    SimState × Option String :=
  if quantity ≤ 0 then (st, none)
  else
    match lookupAsset ts.selectedSymbol st.marketData with
    | none => (st, none)
    | some asset =>
      match fillPrice action ts asset with
      | none => (st, none)
      | some tradePrice =>
        match action with
        | .buy => buyBranch quantity ts st tradePrice
        | .sell => sellBranch quantity ts st tradePrice

/-- The quantity guard `if (quantity <= 0) return;` as it behaves on the
raw `parseInt` result, where `none` models `NaN`: a JavaScript comparison
with `NaN` is `false`, so a `NaN` quantity is NOT rejected and execution
falls through to the trade itself. -/
def quantityGuardRejects (q : Option Int) : Bool :=
  match q with
  | some n => decide (n ≤ 0)
  | none => false

/-- `parseInt` applied to a numeric string, on the idealized representation
of that string as a rational: it keeps the leading integer part, truncating
toward zero (so "3.7" parses to 3). `none` stands for a string with no
leading digits, whose `parseInt` is `NaN`. -/
def jsParseInt (s : Option ℚ) : Option Int :=
  s.map (fun q => q.num / (q.den : Int))

/-- The disjunction of `executeTrade`'s rejection conditions, read off the
early-return branches of the source: non-positive quantity, unknown symbol,
unparsable limit/stop price, a buy costing more than the available cash, or
a sell of more shares than held. -/
def orderRejected (action : Action) (quantity : Int) (ts : TradingState) (st : SimState) :
    Bool :=
  decide (quantity ≤ 0) ||
    match lookupAsset ts.selectedSymbol st.marketData with
    | none => true
    | some asset =>
      match fillPrice action ts asset with
      | none => true
      | some tradePrice =>
        match action with
        | .buy => decide (st.portfolio.cash < tradePrice * (quantity : ℚ))
        | .sell =>
          match lookupPosition ts.selectedSymbol st.portfolio.positions with
          | none => true
          | some position => decide (position.quantity < quantity)

/-! ## Tick-time portfolio valuation (the `setPortfolio` updater inside the
market interval) -/

/-- `Object.entries(prev.positions).reduce(...)`: the sum of
`(marketData[symbol]?.price || 0) * position.quantity` over all held
positions, given the market data the updater closes over. -/
def positionsValue (md : List (String × AssetQuote)) (ps : List (String × Position)) : ℚ :=
  ps.foldl
    (fun total e =>
      total + (((lookupAsset e.1 md).map (fun a => a.price)).getD 0) * (e.2.quantity : ℚ))
    0

/-- The market tick's `setPortfolio` updater: recompute `totalValue` as
`cash + positionsValue` and push it onto the equity history
(`[...prev.equityHistory.slice(1), {value, timestamp}]`). Note that the
`marketData` it reads is the render-time binding, i.e. the prices from
before this tick's `setMarketData`. -/
def updatePortfolioOnTick (md : List (String × AssetQuote)) (p : Portfolio) : Portfolio :=
  let pv := positionsValue md p.positions
  let totalValue := p.cash + pv
  { p with
      totalValue := totalValue,
      equityHistory := p.equityHistory.drop 1 ++ [totalValue] }

/-! ## Market events (spawn interval, cap, timed removal, impact sum) -/

/-- A market event as built by the event interval (`message`, wall-clock
`timestamp` and the random string `id` are abstracted; `id` is kept as a
numeric identifier since only identity matters for removal). -/
structure MarketEvent where
  id : ℕ
  impact : ℚ
  symbols : List String
  sector : Option String
  duration : ℕ
deriving DecidableEq

/-- Spawning: `events: [newEvent, ...prev.events.slice(0, 4)]` — the new
event is prepended and only the four most recent previous events are kept
(a hard cap of five). -/
def spawnEvent (e : MarketEvent) (evs : List MarketEvent) : List MarketEvent :=
  e :: evs.take 4

/-- The `setTimeout` removal fired once the event's duration has elapsed:
`events.filter(e => e.id !== newEvent.id)`. -/
def removeEvent (i : ℕ) (evs : List MarketEvent) : List MarketEvent :=
  evs.filter (fun e => e.id ≠ i)

/-- Whether an event's scope includes an asset:
`event.symbols.includes(symbol) || event.sector === asset.sector` (a
single-asset event has `sector: null`, modelled as `none`, which never
equals a sector string). -/
def eventMatches (e : MarketEvent) (symbol : String) (sector : String) : Bool :=
  symbol ∈ e.symbols || e.sector == some sector

/-- The per-asset event impact summed on each market tick:
`marketStatus.events.reduce((impact, event) => ...)`. Only events currently
in the (capped) active list contribute. -/
def eventImpact (evs : List MarketEvent) (symbol : String) (sector : String) : ℚ :=
  evs.foldl
    (fun impact e => if eventMatches e symbol sector then impact + e.impact else impact)
    0

end TradingSim

namespace PriceProcess

/-! ## Price process (`generateRealisticPrice` and the tick's quote
refresh), over the reals since the source applies `Math.exp` and
`Math.sqrt`. The random shock `(Math.random() - 0.5) * 2` is passed in as
an explicit parameter. -/

/-- `generateRealisticPrice(previousPrice, volatility, marketSentiment,
eventImpact, timeStep)`: a geometric step
`previousPrice * exp(drift + volatilityFactor * randomShock + eventImpact)`
floored at `0.01` by `Math.max(0.01, newPrice)`. -/
noncomputable def generateRealisticPrice (previousPrice volatility marketSentiment
    eventImpact timeStep randomShock : ℝ) : ℝ :=
  let drift := 0.0001 + marketSentiment * 0.0003
  let volatilityFactor := volatility * Real.sqrt timeStep
  let priceChange := drift + volatilityFactor * randomShock + eventImpact
  let newPrice := previousPrice * Real.exp priceChange
  max 0.01 newPrice

/-- The quote refresh performed by the market tick on the new price:
`spread = newPrice * 0.0003; bid = newPrice - spread; ask = newPrice +
spread`, returned as `(bid, ask)`. -/
noncomputable def tickQuotes (newPrice : ℝ) : ℝ × ℝ :=
  let spread := newPrice * 0.0003
  (newPrice - spread, newPrice + spread)

/-- The 30-day seed walk run at mount time: starting from `basePrice`,
repeatedly apply `currentPrice * Math.exp(0.0001 + volatility *
Math.sqrt(timeStep) * randomShock)` for each random shock drawn. -/
noncomputable def initPriceWalk (basePrice volatility timeStep : ℝ) (shocks : List ℝ) : ℝ :=
  shocks.foldl
    (fun p shock => p * Real.exp (0.0001 + volatility * Real.sqrt timeStep * shock))
    basePrice

/-- The initial quotes attached to the seeded asset:
`bid = price * 0.9995, ask = price * 1.0005`, returned as `(bid, ask)`. -/
noncomputable def initQuotes (price : ℝ) : ℝ × ℝ :=
  (price * 0.9995, price * 1.0005)

end PriceProcess

namespace Progression

/-! ## Mission / progression state machine. -/

/-- Progression state: current level and earned badges. -/
structure State where
  level : ℕ
  badges : List String
deriving DecidableEq

/-- A mission: a completion predicate over a snapshot of the game state and
a reward badge token. -/
structure Mission (σ : Type) where
  predicate : σ → Bool
  badge : String

/-- Modelled from the spec: no mission/progression code exists under
`src/`; this follows §4.6 of the specification. On each refresh, evaluate
the predicate of the mission matching the current level (the terminal
state, with no mission, performs no transition). If the predicate is true,
advance the level by exactly 1 and append the mission's reward badge only
if it is not already present. -/
def evaluateMissions {σ : Type} (missions : ℕ → Option (Mission σ)) (snap : σ)
    (p : State) : State :=
  match missions p.level with
  | none => p
  | some m =>
    if m.predicate snap then
      { level := p.level + 1,
        badges := if m.badge ∈ p.badges then p.badges else p.badges ++ [m.badge] }
    else p

end Progression

namespace TradingSim

/-! ## Auxiliary definitions used by the statements -/

/-- The per-position bookkeeping invariant asserted by the specification: a
stored position has strictly positive quantity and its `totalInvested`
equals `averageCost × quantity`. -/
def posInvariant (ps : List (String × Position)) : Prop :=
  ∀ e ∈ ps, 1 ≤ e.2.quantity ∧ e.2.totalInvested = e.2.averageCost * (e.2.quantity : ℚ)

/-- Apply a sequence of buy orders (each given by its parsed quantity and
order-entry fields) through `executeTrade`. -/
def applyBuys (orders : List (Int × TradingState)) (st : SimState) : SimState :=
  orders.foldl (fun s o => (executeTrade .buy o.1 o.2 s).1) st

/-- A sample state: one asset "A" quoted at price 10 (bid 9, ask 11),
100 in cash, no positions. -/
def stateNoPos : SimState :=
  { marketData := [("A", ⟨10, 9, 11, "T"⟩)],
    portfolio := ⟨100, [], [], 100, 0⟩,
    performanceMetrics := ⟨0, 0, 0, 0, 0⟩,
    tradeHistory := [] }

/-- A sample state holding one share of "A" at average cost 20, with the
asset quoted flat at 10. -/
def statePriorPos : SimState :=
  { marketData := [("A", ⟨10, 10, 10, "T"⟩)],
    portfolio := ⟨100, [("A", ⟨1, 20, 20⟩)], [], 110, 0⟩,
    performanceMetrics := ⟨0, 0, 0, 0, 0⟩,
    tradeHistory := [] }

/-- A sample state holding two shares of "A" at average cost 10, with zero
performance metrics. -/
def stateTwoShares : SimState :=
  { marketData := [("A", ⟨10, 10, 10, "T"⟩)],
    portfolio := ⟨0, [("A", ⟨2, 10, 20⟩)], [], 20, 0⟩,
    performanceMetrics := ⟨0, 0, 0, 0, 0⟩,
    tradeHistory := [] }

/-- A sample state holding ten shares of "A" at average cost 1, with 10 in
cash. -/
def stateTenShares : SimState :=
  { marketData := [("A", ⟨10, 10, 10, "T"⟩)],
    portfolio := ⟨10, [("A", ⟨10, 1, 10⟩)], [], 110, 0⟩,
    performanceMetrics := ⟨0, 0, 0, 0, 0⟩,
    tradeHistory := [] }

end TradingSim

/-! # Theorems -/

namespace TradingSim

theorem lookupAsset_mem {sym : String} {md : List (String × AssetQuote)} {a : AssetQuote}
    (h : lookupAsset sym md = some a) : ∃ e ∈ md, e.2 = a := by
  unfold lookupAsset at h
  cases hf : md.find? (fun e => e.1 == sym) with
  | none => rw [hf] at h; simp at h
  | some e =>
    rw [hf] at h
    simp only [Option.map_some'] at h
    exact ⟨e, List.mem_of_find?_eq_some hf, Option.some.inj h⟩

theorem mem_setPosition {sym : String} {pos : Position} {ps : List (String × Position)}
    {e : String × Position} (h : e ∈ setPosition sym pos ps) :
    e = (sym, pos) ∨ e ∈ ps := by
  unfold setPosition at h
  split at h
  · rcases List.mem_map.mp h with ⟨x, hx, hfx⟩
    by_cases hxs : x.1 == sym
    · left; rw [if_pos hxs] at hfx; exact hfx.symm
    · right; rw [if_neg hxs] at hfx; exact hfx ▸ hx
  · rcases List.mem_append.mp h with hx | hx
    · right; exact hx
    · left; simpa using hx

theorem find?_map_replace (sym : String) (pos : Position) (ps : List (String × Position)) :
    (ps.map (fun e => if e.1 == sym then (sym, pos) else e)).find? (fun e => e.1 == sym)
      = if ps.any (fun e => e.1 == sym) then some (sym, pos) else none := by
  induction ps with
  | nil => rfl
  | cons e t ih =>
    by_cases he : (e.1 == sym) = true
    · simp only [List.map_cons]
      rw [if_pos he, List.find?_cons_of_pos _ (by simp), List.any_cons, he, Bool.true_or]
      rfl
    · simp only [List.map_cons, List.any_cons, he, Bool.false_or, if_neg he]
      rw [List.find?_cons_of_neg _ (by simpa using he)]
      exact ih

theorem lookupPosition_setPosition_self (sym : String) (pos : Position)
    (ps : List (String × Position)) :
    lookupPosition sym (setPosition sym pos ps) = some pos := by
  unfold lookupPosition setPosition
  split
  · rename_i hany
    rw [find?_map_replace, if_pos hany]
    rfl
  · rename_i hany
    rw [List.find?_append]
    have hnone : ps.find? (fun e => e.1 == sym) = none :=
      List.find?_eq_none.mpr (fun x hx hpx => hany (List.any_eq_true.mpr ⟨x, hx, hpx⟩))
    rw [hnone]
    simp

/-- C2: every rejection path of `executeTrade` returns the state it was
given, untouched in every component. -/
theorem executeTrade_rejected_no_change (action : Action) (q : Int) (ts : TradingState)
    (st : SimState) (h : orderRejected action q ts st = true) :
    (executeTrade action q ts st).1 = st := by
  unfold executeTrade
  unfold orderRejected at h
  rw [Bool.or_eq_true] at h
  by_cases hq : q ≤ 0
  · rw [if_pos hq]
  · rw [if_neg hq]
    replace h := h.resolve_left (by simpa using hq)
    cases hasset : lookupAsset ts.selectedSymbol st.marketData with
    | none => rfl
    | some asset =>
      simp only [hasset] at h ⊢
      cases hP : fillPrice action ts asset with
      | none => rfl
      | some P =>
        simp only [hP] at h ⊢
        cases action with
        | buy =>
          simp only [] at h ⊢
          unfold buyBranch
          rw [if_pos (of_decide_eq_true h)]
        | sell =>
          unfold sellBranch
          cases hpos : lookupPosition ts.selectedSymbol st.portfolio.positions with
          | none => simp [hpos]
          | some position =>
            simp only [hpos] at h ⊢
            rw [if_pos (of_decide_eq_true h)]

/-- C2 witness: a sell with no position held is rejected and the state is
returned unchanged. -/
theorem executeTrade_rejected_no_change_witness :
    orderRejected .sell 1 ⟨"A", .market, none, none⟩ stateNoPos = true ∧
      (executeTrade .sell 1 ⟨"A", .market, none, none⟩ stateNoPos).1 = stateNoPos :=
  ⟨by decide, executeTrade_rejected_no_change _ _ _ _ (by decide)⟩

theorem buyBranch_cash_nonneg (q : Int) (ts : TradingState) (st : SimState) (P : ℚ)
    (hcash : 0 ≤ st.portfolio.cash) :
    0 ≤ (buyBranch q ts st P).1.portfolio.cash := by
  simp only [buyBranch]
  split
  · exact hcash
  · rename_i hlt
    have h := not_lt.mp hlt
    show 0 ≤ st.portfolio.cash - P * (q : ℚ)
    linarith

theorem sellBranch_cash_nonneg (q : Int) (ts : TradingState) (st : SimState) (P : ℚ)
    (hcash : 0 ≤ st.portfolio.cash) (hP : 0 ≤ P) (hq : 0 ≤ (q : ℚ)) :
    0 ≤ (sellBranch q ts st P).1.portfolio.cash := by
  simp only [sellBranch]
  split
  · exact hcash
  · split
    · exact hcash
    · show 0 ≤ st.portfolio.cash + P * (q : ℚ)
      have := mul_nonneg hP hq
      linarith

/-- C1 (amended): starting from non-negative cash, an accepted buy never
drives cash negative at any fill price (an unaffordable buy is rejected
outright, so the debit is always covered), and an accepted sell keeps cash
non-negative provided the fill price it can use — quoted bid, or the
user-supplied limit/stop price — is non-negative. (A sell at a negative
user-supplied price can drive cash negative; see the counterexample.) -/
theorem executeTrade_cash_nonneg (q : Int) (ts : TradingState) (st : SimState)
    (hcash : 0 ≤ st.portfolio.cash) :
    0 ≤ (executeTrade .buy q ts st).1.portfolio.cash ∧
      (∀ (a : AssetQuote) (P : ℚ),
        lookupAsset ts.selectedSymbol st.marketData = some a →
        fillPrice .buy ts a = some P →
        st.portfolio.cash < P * (q : ℚ) →
        (executeTrade .buy q ts st).1 = st) ∧
      (0 ≤ ts.limitPrice.getD 0 → 0 ≤ ts.stopPrice.getD 0 →
        (∀ e ∈ st.marketData, 0 ≤ e.2.bid) →
        0 ≤ (executeTrade .sell q ts st).1.portfolio.cash) := by
  refine ⟨?_, ?_, ?_⟩
  · unfold executeTrade
    split
    · exact hcash
    · cases hA : lookupAsset ts.selectedSymbol st.marketData with
      | none => exact hcash
      | some asset =>
        simp only [hA]
        cases hP : fillPrice .buy ts asset with
        | none => exact hcash
        | some P =>
          simp only [hP]
          exact buyBranch_cash_nonneg q ts st P hcash
  · intro a P hA hP hlt
    unfold executeTrade
    split
    · rfl
    · simp only [hA, hP, buyBranch]
      rw [if_pos hlt]
  · intro hl hs hbid
    unfold executeTrade
    split
    · exact hcash
    · rename_i hq
      cases hA : lookupAsset ts.selectedSymbol st.marketData with
      | none => exact hcash
      | some asset =>
        simp only [hA]
        cases hP : fillPrice .sell ts asset with
        | none => exact hcash
        | some P =>
          simp only [hP]
          have hq' : 0 ≤ (q : ℚ) := by
            have h0 : 0 < q := not_le.mp hq
            exact_mod_cast le_of_lt h0
          have hP0 : 0 ≤ P := by
            unfold fillPrice at hP
            cases hot : ts.orderType
            · simp only [hot] at hP
              rcases lookupAsset_mem hA with ⟨e, he, rfl⟩
              rw [← Option.some.inj hP]
              exact hbid e he
            · simp only [hot] at hP
              rw [hP] at hl
              simpa using hl
            · simp only [hot] at hP
              rw [hP] at hs
              simpa using hs
          exact sellBranch_cash_nonneg q ts st P hcash hP0 hq'

/-- C1 witness: from the sample no-position state (cash 100) the buy
conclusion and the sell implication hold at quantity 2. -/
theorem executeTrade_cash_nonneg_witness :
    (0 : ℚ) ≤ stateNoPos.portfolio.cash ∧
      (0 ≤ (executeTrade .buy 2 ⟨"A", .market, none, none⟩ stateNoPos).1.portfolio.cash ∧
        (∀ (a : AssetQuote) (P : ℚ),
          lookupAsset "A" stateNoPos.marketData = some a →
          fillPrice .buy ⟨"A", .market, none, none⟩ a = some P →
          stateNoPos.portfolio.cash < P * ((2 : Int) : ℚ) →
          (executeTrade .buy 2 ⟨"A", .market, none, none⟩ stateNoPos).1 = stateNoPos) ∧
        (0 ≤ (⟨"A", .market, none, none⟩ : TradingState).limitPrice.getD 0 →
          0 ≤ (⟨"A", .market, none, none⟩ : TradingState).stopPrice.getD 0 →
          (∀ e ∈ stateNoPos.marketData, 0 ≤ e.2.bid) →
          0 ≤ (executeTrade .sell 2 ⟨"A", .market, none, none⟩ stateNoPos).1.portfolio.cash)) :=
  ⟨by norm_num [stateNoPos],
    executeTrade_cash_nonneg 2 ⟨"A", .market, none, none⟩ stateNoPos
      (by norm_num [stateNoPos])⟩

/-- C1 counterexample: with cash 10 ≥ 0 and ten shares held, a sell of all
ten shares at the user-supplied limit price −5 is accepted and leaves cash
at −40 < 0. -/
theorem executeTrade_cash_negative_counterexample :
    (0 : ℚ) ≤ stateTenShares.portfolio.cash ∧
      (executeTrade .sell 10 ⟨"A", .limit, some (-5), none⟩
          stateTenShares).1.portfolio.cash < 0 := by
  constructor
  · norm_num [stateTenShares]
  · norm_num [executeTrade, sellBranch, lookupAsset, fillPrice, lookupPosition,
      removePosition, stateTenShares, List.find?]

/-- C3 (code-bug evidence): the quantity guard `if (quantity <= 0) return`
does not reject a `NaN` quantity (an unparsable input string), because
`NaN <= 0` is `false` in JavaScript, so execution proceeds into the trade;
`parseInt` truncates a fractional input such as "3.7" to 3 instead of
rejecting it; and the rejection of a zero quantity is a bare `return` with
no alert, so the caller is never told why nothing happened. -/
theorem quantityGuard_code_bug :
    quantityGuardRejects none = false ∧
      quantityGuardRejects (some 0) = true ∧
      jsParseInt (some (Rat.mk' 37 10 (by norm_num) (by norm_num))) = some 3 ∧
      (executeTrade .buy 0 ⟨"A", .market, none, none⟩ stateNoPos).2 = none ∧
      (executeTrade .buy 0 ⟨"A", .market, none, none⟩ stateNoPos).1 = stateNoPos :=
  ⟨rfl, rfl, rfl, rfl, rfl⟩

/-- C5 counterexample: starting with cash 100 and a pre-existing position
of 1 share at average cost 20, a limit buy of 1 at 10 followed by a limit
sell of 1 at 10 returns cash to 100 but contributes −5 (not 0) to realized
P/L, because the buy pulls the average cost to 15. -/
theorem roundTrip_pnl_counterexample :
    ((executeTrade .sell 1 ⟨"A", .limit, some 10, none⟩
        ((executeTrade .buy 1 ⟨"A", .limit, some 10, none⟩ statePriorPos).1)).1.portfolio.cash
        = statePriorPos.portfolio.cash) ∧
      ((executeTrade .sell 1 ⟨"A", .limit, some 10, none⟩
        ((executeTrade .buy 1 ⟨"A", .limit, some 10, none⟩
          statePriorPos).1)).1.portfolio.realizedPnL ≠ 0) := by
  constructor <;>
    norm_num [executeTrade, buyBranch, sellBranch, lookupAsset, fillPrice, lookupPosition,
      setPosition, emptyPosition, statePriorPos, List.find?]

theorem lookupPosition_mem {sym : String} {ps : List (String × Position)} {pos : Position}
    (h : lookupPosition sym ps = some pos) : ∃ e ∈ ps, e.2 = pos := by
  unfold lookupPosition at h
  cases hf : ps.find? (fun e => e.1 == sym) with
  | none => rw [hf] at h; simp at h
  | some e =>
    rw [hf] at h
    simp only [Option.map_some'] at h
    exact ⟨e, List.mem_of_find?_eq_some hf, Option.some.inj h⟩

/-- C5 (amended): for every starting state whose stored positions satisfy
the bookkeeping invariant, a buy of Q at limit price P followed immediately
by a sell of Q at the same limit price P returns cash exactly to its
pre-buy value; it contributes exactly zero to realized P/L when the
portfolio held no prior position in that symbol, while with a prior
position whose average cost differs from P the buy moves the average cost
and the sell realizes (P − newAverageCost)·Q ≠ 0. -/
theorem roundTrip_amended (ts : TradingState) (P : ℚ) (q : Int) (st : SimState)
    (a : AssetQuote)
    (hot : ts.orderType = .limit) (hlp : ts.limitPrice = some P)
    (hq : 0 < q)
    (hasset : lookupAsset ts.selectedSymbol st.marketData = some a)
    (hinv : posInvariant st.portfolio.positions)
    (hfunds : ¬ st.portfolio.cash < P * (q : ℚ)) :
    ((executeTrade .sell q ts
        ((executeTrade .buy q ts st).1)).1.portfolio.cash = st.portfolio.cash) ∧
      (lookupPosition ts.selectedSymbol st.portfolio.positions = none →
        (executeTrade .sell q ts
          ((executeTrade .buy q ts st).1)).1.portfolio.realizedPnL
          = st.portfolio.realizedPnL) ∧
      (∀ p0 : Position,
        lookupPosition ts.selectedSymbol st.portfolio.positions = some p0 →
        p0.averageCost ≠ P →
        (executeTrade .sell q ts
          ((executeTrade .buy q ts st).1)).1.portfolio.realizedPnL
          ≠ st.portfolio.realizedPnL) := by
  have hqle : ¬ q ≤ 0 := not_le.mpr hq
  have hqQ : ((q : ℚ)) ≠ 0 := by
    have : (0 : ℚ) < (q : ℚ) := by exact_mod_cast hq
    exact ne_of_gt this
  have hfillB : fillPrice .buy ts a = some P := by simp [fillPrice, hot, hlp]
  have hfillS : fillPrice .sell ts a = some P := by simp [fillPrice, hot, hlp]
  cases hpos : lookupPosition ts.selectedSymbol st.portfolio.positions with
  | none =>
    refine ⟨?_, fun _ => ?_, ?_⟩
    · simp [executeTrade, buyBranch, sellBranch, hqle, hasset, hfillB, hfillS, hfunds,
        hpos, emptyPosition, lookupPosition_setPosition_self,
        mul_div_cancel_right₀ P hqQ]
    · simp [executeTrade, buyBranch, sellBranch, hqle, hasset, hfillB, hfillS, hfunds,
        hpos, emptyPosition, lookupPosition_setPosition_self,
        mul_div_cancel_right₀ P hqQ]
    · intro p0 hp0
      simp at hp0
  | some p0 =>
    rcases lookupPosition_mem hpos with ⟨e0, he0, he0p⟩
    have hinv0 := hinv e0 he0
    rw [he0p] at hinv0
    obtain ⟨h1, hT⟩ := hinv0
    have hnlt : ¬ (p0.quantity + q < q) := by omega
    have hq0pos : (0 : ℚ) < (p0.quantity : ℚ) + (q : ℚ) := by
      have hz : (0 : Int) < p0.quantity + q := by omega
      exact_mod_cast hz
    have hkey :
        ((executeTrade .sell q ts
            ((executeTrade .buy q ts st).1)).1.portfolio.cash = st.portfolio.cash) ∧
          ((executeTrade .sell q ts
            ((executeTrade .buy q ts st).1)).1.portfolio.realizedPnL
            = st.portfolio.realizedPnL
              + (P - (p0.totalInvested + P * (q : ℚ))
                  / ((p0.quantity : ℚ) + (q : ℚ))) * (q : ℚ)) := by
      constructor <;>
        simp [executeTrade, buyBranch, sellBranch, hqle, hasset, hfillB, hfillS, hfunds,
          hpos, lookupPosition_setPosition_self, hnlt]
    refine ⟨hkey.1, ?_, ?_⟩
    · intro h0
      simp at h0
    · intro p0' hp0' hne
      obtain rfl : p0 = p0' := Option.some.inj hp0'
      rw [hkey.2]
      intro hcon
      have hX : (P - (p0.totalInvested + P * (q : ℚ))
          / ((p0.quantity : ℚ) + (q : ℚ))) * (q : ℚ) = 0 := by linarith
      rcases mul_eq_zero.mp hX with hX1 | hX2
      · have hPavg : P = (p0.totalInvested + P * (q : ℚ))
            / ((p0.quantity : ℚ) + (q : ℚ)) := by linarith
        rw [eq_div_iff (ne_of_gt hq0pos)] at hPavg
        rw [hT] at hPavg
        have hq0 : (0 : ℚ) < (p0.quantity : ℚ) := by
          have : (0 : Int) < p0.quantity := by omega
          exact_mod_cast this
        have hfactor : (P - p0.averageCost) * (p0.quantity : ℚ) = 0 := by
          linear_combination hPavg
        rcases mul_eq_zero.mp hfactor with h | h
        · exact hne (by linarith)
        · exact absurd h (ne_of_gt hq0)
      · exact absurd hX2 hqQ

/-- C5 witness: a concrete round trip (buy 1 at limit 10, sell 1 at limit
10) from the no-position sample state, whose empty position map satisfies
the bookkeeping invariant vacuously. -/
theorem roundTrip_amended_witness :
    (⟨"A", .limit, some 10, none⟩ : TradingState).orderType = .limit ∧
      (⟨"A", .limit, some 10, none⟩ : TradingState).limitPrice = some 10 ∧
      (0 : Int) < 1 ∧
      lookupAsset "A" stateNoPos.marketData = some ⟨10, 9, 11, "T"⟩ ∧
      posInvariant stateNoPos.portfolio.positions ∧
      ¬ stateNoPos.portfolio.cash < 10 * ((1 : Int) : ℚ) ∧
      (((executeTrade .sell 1 ⟨"A", .limit, some 10, none⟩
          ((executeTrade .buy 1 ⟨"A", .limit, some 10, none⟩
            stateNoPos).1)).1.portfolio.cash = stateNoPos.portfolio.cash) ∧
        (lookupPosition "A" stateNoPos.portfolio.positions = none →
          (executeTrade .sell 1 ⟨"A", .limit, some 10, none⟩
            ((executeTrade .buy 1 ⟨"A", .limit, some 10, none⟩
              stateNoPos).1)).1.portfolio.realizedPnL
            = stateNoPos.portfolio.realizedPnL) ∧
        (∀ p0 : Position,
          lookupPosition "A" stateNoPos.portfolio.positions = some p0 →
          p0.averageCost ≠ 10 →
          (executeTrade .sell 1 ⟨"A", .limit, some 10, none⟩
            ((executeTrade .buy 1 ⟨"A", .limit, some 10, none⟩
              stateNoPos).1)).1.portfolio.realizedPnL
            ≠ stateNoPos.portfolio.realizedPnL)) :=
  ⟨rfl, rfl, by decide, by decide, by simp [posInvariant, stateNoPos],
    by norm_num [stateNoPos],
    roundTrip_amended ⟨"A", .limit, some 10, none⟩ 10 1 stateNoPos ⟨10, 9, 11, "T"⟩
      rfl rfl (by decide) (by decide) (by simp [posInvariant, stateNoPos])
      (by norm_num [stateNoPos])⟩

theorem executeTrade_buy_posInvariant (q : Int) (ts : TradingState) (st : SimState)
    (h : posInvariant st.portfolio.positions) :
    posInvariant (executeTrade .buy q ts st).1.portfolio.positions := by
  unfold executeTrade
  split
  · exact h
  · rename_i hq
    cases hA : lookupAsset ts.selectedSymbol st.marketData with
    | none => exact h
    | some asset =>
      simp only [hA]
      cases hP : fillPrice .buy ts asset with
      | none => exact h
      | some P =>
        simp only [hP, buyBranch]
        split
        · exact h
        · cases hpos : lookupPosition ts.selectedSymbol st.portfolio.positions with
          | none =>
            simp only [hpos, Option.getD_none, emptyPosition]
            intro e he
            rcases mem_setPosition he with rfl | he'
            · have h1 : 1 ≤ (0 : Int) + q := by omega
              refine ⟨h1, ?_⟩
              have hne : (((0 : Int) + q : Int) : ℚ) ≠ 0 := by
                have : (0 : Int) < 0 + q := by omega
                exact_mod_cast ne_of_gt this
              exact (div_mul_cancel₀ _ hne).symm
            · exact h e he'
          | some p0 =>
            simp only [hpos, Option.getD_some]
            intro e he
            rcases mem_setPosition he with rfl | he'
            · rcases lookupPosition_mem hpos with ⟨e0, he0, he0p⟩
              have hinv := h e0 he0
              rw [he0p] at hinv
              have h1 : 1 ≤ p0.quantity + q := by omega
              refine ⟨h1, ?_⟩
              have hne : ((p0.quantity + q : Int) : ℚ) ≠ 0 := by
                have : (0 : Int) < p0.quantity + q := by omega
                exact_mod_cast ne_of_gt this
              exact (div_mul_cancel₀ _ hne).symm
            · exact h e he'

/-- C6: applying any sequence of buy orders through `executeTrade` to a
state whose positions satisfy the bookkeeping invariant (positive quantity
and `totalInvested = averageCost × quantity`, with the average cost
recomputed as the quantity-weighted mean on every buy) preserves that
invariant exactly — in rationals, with no numeric tolerance needed. -/
theorem applyBuys_posInvariant (orders : List (Int × TradingState)) (st : SimState)
    (h : posInvariant st.portfolio.positions) :
    posInvariant (applyBuys orders st).portfolio.positions := by
  induction orders generalizing st with
  | nil => exact h
  | cons o t ih => exact ih _ (executeTrade_buy_posInvariant o.1 o.2 st h)

/-- C6 witness: two concrete buys (2 at the market ask, then 3 at limit 8)
on the no-position sample state. -/
theorem applyBuys_posInvariant_witness :
    posInvariant stateNoPos.portfolio.positions ∧
      posInvariant (applyBuys
          [(2, ⟨"A", .market, none, none⟩), (3, ⟨"A", .limit, some 8, none⟩)]
          stateNoPos).portfolio.positions :=
  ⟨by simp [posInvariant, stateNoPos],
    applyBuys_posInvariant _ _ (by simp [posInvariant, stateNoPos])⟩

/-- C7 (code-bug evidence): starting from zero metrics and two shares held
at average cost 10, a winning sell (1 at limit 15, profit +5) followed by a
losing sell (1 at limit 5, profit −5) leaves `totalTrades = 2` but
`winRate = 1`: the updater only re-weights winRate on winning sells and
leaves it unchanged on losing ones, so it no longer equals the fraction of
winning sells (here 1/2). -/
theorem winRate_code_bug :
    ((executeTrade .sell 1 ⟨"A", .limit, some 5, none⟩
        ((executeTrade .sell 1 ⟨"A", .limit, some 15, none⟩
          stateTwoShares).1)).1.performanceMetrics.totalTrades = 2) ∧
      ((executeTrade .sell 1 ⟨"A", .limit, some 5, none⟩
        ((executeTrade .sell 1 ⟨"A", .limit, some 15, none⟩
          stateTwoShares).1)).1.performanceMetrics.winRate = 1) ∧
      ((executeTrade .sell 1 ⟨"A", .limit, some 5, none⟩
        ((executeTrade .sell 1 ⟨"A", .limit, some 15, none⟩
          stateTwoShares).1)).1.performanceMetrics.winRate ≠ 1 / 2) := by
  refine ⟨?_, ?_, ?_⟩ <;>
    norm_num [executeTrade, sellBranch, lookupAsset, fillPrice, lookupPosition,
      setPosition, removePosition, stateTwoShares, List.find?]

/-- C8 (amended): `totalValue` is recomputed as
`cash + Σ quantity × price` only by the market tick's portfolio updater
(over the market data that updater is given, i.e. the pre-tick prices),
which also pushes the value onto the equity history; `executeTrade` leaves
both `totalValue` and the equity history untouched on every path, so
immediately after an accepted order `totalValue` is stale until the next
tick. -/
theorem totalValue_recomputed_only_on_tick :
    (∀ (md : List (String × AssetQuote)) (p : Portfolio),
        (updatePortfolioOnTick md p).totalValue = p.cash + positionsValue md p.positions ∧
          (updatePortfolioOnTick md p).equityHistory
            = p.equityHistory.drop 1 ++ [p.cash + positionsValue md p.positions]) ∧
      (∀ (action : Action) (q : Int) (ts : TradingState) (st : SimState),
        (executeTrade action q ts st).1.portfolio.totalValue = st.portfolio.totalValue ∧
          (executeTrade action q ts st).1.portfolio.equityHistory
            = st.portfolio.equityHistory) := by
  constructor
  · intro md p
    exact ⟨rfl, rfl⟩
  · intro action q ts st
    unfold executeTrade
    split
    · exact ⟨rfl, rfl⟩
    · cases hA : lookupAsset ts.selectedSymbol st.marketData with
      | none => exact ⟨rfl, rfl⟩
      | some asset =>
        simp only [hA]
        cases hP : fillPrice action ts asset with
        | none => exact ⟨rfl, rfl⟩
        | some P =>
          simp only [hP]
          cases action with
          | buy =>
            simp only [buyBranch]
            split
            · exact ⟨rfl, rfl⟩
            · exact ⟨rfl, rfl⟩
          | sell =>
            simp only [sellBranch]
            split
            · exact ⟨rfl, rfl⟩
            · split
              · exact ⟨rfl, rfl⟩
              · exact ⟨rfl, rfl⟩

/-- C8 counterexample: immediately after an accepted market buy (1 share of
"A" at ask 11 while the price is 10), `totalValue` still reads 100 although
`cash + Σ quantity × price = 89 + 10 = 99`. -/
theorem totalValue_stale_counterexample :
    (executeTrade .buy 1 ⟨"A", .market, none, none⟩ stateNoPos).1.portfolio.totalValue ≠
      (executeTrade .buy 1 ⟨"A", .market, none, none⟩ stateNoPos).1.portfolio.cash +
        positionsValue
          (executeTrade .buy 1 ⟨"A", .market, none, none⟩ stateNoPos).1.marketData
          (executeTrade .buy 1 ⟨"A", .market, none, none⟩ stateNoPos).1.portfolio.positions := by
  norm_num [executeTrade, buyBranch, lookupAsset, fillPrice, lookupPosition, setPosition,
    emptyPosition, positionsValue, stateNoPos, List.find?]

theorem foldl_impact_shift (sym sec : String) (l : List MarketEvent) :
    ∀ a : ℚ,
      l.foldl (fun impact ev => if eventMatches ev sym sec then impact + ev.impact else impact) a
        = a + l.foldl
            (fun impact ev => if eventMatches ev sym sec then impact + ev.impact else impact) 0 := by
  induction l with
  | nil => intro a; simp
  | cons e t ih =>
    intro a
    simp only [List.foldl_cons]
    rw [ih, ih (if eventMatches e sym sec then 0 + e.impact else 0)]
    by_cases hm : eventMatches e sym sec = true
    · rw [if_pos hm, if_pos hm]; ring
    · rw [if_neg hm, if_neg hm]; ring

/-- C9 (amended): while an event is in the active list it contributes
exactly its impact to the drift sum of every asset its scope matches, and
the timed removal deletes exactly the events bearing its id (so a
surviving event stops contributing exactly at expiry); but spawning keeps
only the newest five events, so an older event can be evicted early, in
which case it stops contributing before its duration has elapsed. -/
theorem event_lifecycle :
    (∀ (ev : MarketEvent) (evs : List MarketEvent) (sym sec : String),
        eventImpact (ev :: evs) sym sec =
          (if eventMatches ev sym sec then ev.impact else 0) + eventImpact evs sym sec) ∧
      (∀ (i : ℕ) (evs : List MarketEvent) (ev : MarketEvent),
        ev ∈ removeEvent i evs ↔ ev ∈ evs ∧ ev.id ≠ i) ∧
      (∀ (ev : MarketEvent) (evs : List MarketEvent),
        spawnEvent ev evs = ev :: evs.take 4 ∧ (spawnEvent ev evs).length ≤ 5) := by
  refine ⟨?_, ?_, ?_⟩
  · intro ev evs sym sec
    unfold eventImpact
    simp only [List.foldl_cons]
    rw [foldl_impact_shift]
    by_cases hm : eventMatches ev sym sec = true
    · rw [if_pos hm, if_pos hm]
      try ring
    · rw [if_neg hm, if_neg hm]
      try ring
  · intro i evs ev
    simp [removeEvent, List.mem_filter]
  · intro ev evs
    refine ⟨rfl, ?_⟩
    simp only [spawnEvent, List.length_cons, List.length_take]
    omega

/-- C9 counterexample: after five newer events spawn, the oldest event
(id 1, impact 3 on "AAPL", duration 45 not yet elapsed) has been evicted by
the cap and contributes nothing to the drift sum for "AAPL". -/
theorem event_cap_eviction_counterexample :
    ((⟨1, 3, ["AAPL"], none, 45⟩ : MarketEvent) ∉
        spawnEvent ⟨6, 1, ["X"], none, 45⟩ (spawnEvent ⟨5, 1, ["X"], none, 45⟩
          (spawnEvent ⟨4, 1, ["X"], none, 45⟩ (spawnEvent ⟨3, 1, ["X"], none, 45⟩
            (spawnEvent ⟨2, 1, ["X"], none, 45⟩
              (spawnEvent ⟨1, 3, ["AAPL"], none, 45⟩ [])))))) ∧
      eventMatches ⟨1, 3, ["AAPL"], none, 45⟩ "AAPL" "Technology" = true ∧
      (⟨1, 3, ["AAPL"], none, 45⟩ : MarketEvent).impact ≠ 0 ∧
      eventImpact
        (spawnEvent ⟨6, 1, ["X"], none, 45⟩ (spawnEvent ⟨5, 1, ["X"], none, 45⟩
          (spawnEvent ⟨4, 1, ["X"], none, 45⟩ (spawnEvent ⟨3, 1, ["X"], none, 45⟩
            (spawnEvent ⟨2, 1, ["X"], none, 45⟩
              (spawnEvent ⟨1, 3, ["AAPL"], none, 45⟩ []))))))
        "AAPL" "Technology" = 0 := by
  decide

end TradingSim

namespace PriceProcess

theorem initPriceWalk_pos (basePrice volatility timeStep : ℝ) (shocks : List ℝ)
    (hbase : 0 < basePrice) :
    0 < initPriceWalk basePrice volatility timeStep shocks := by
  unfold initPriceWalk
  induction shocks generalizing basePrice with
  | nil => exact hbase
  | cons s t ih =>
    simp only [List.foldl_cons]
    exact ih _ (mul_pos hbase (Real.exp_pos _))

theorem generateRealisticPrice_ge (prev vol sent imp ts shock : ℝ) :
    0.01 ≤ generateRealisticPrice prev vol sent imp ts shock := by
  simp only [generateRealisticPrice]
  exact le_max_left _ _

/-- C4: the seeded starting price is strictly positive whenever the
configured base price is (it is a product of exponential factors), with the
initial quotes bracketing it as `bid = price·0.9995 ≤ price ≤ price·1.0005
= ask`; and every tick's new price is floored at the positive epsilon 0.01
by `Math.max(0.01, ·)` — so it can never become zero or negative — with the
refreshed quotes bracketing it as `price − spread ≤ price ≤ price +
spread`. -/
theorem price_and_quote_bounds (basePrice volatility timeStep : ℝ) (shocks : List ℝ)
    (hbase : 0 < basePrice) :
    (0 < initPriceWalk basePrice volatility timeStep shocks ∧
        (initQuotes (initPriceWalk basePrice volatility timeStep shocks)).1
          ≤ initPriceWalk basePrice volatility timeStep shocks ∧
        initPriceWalk basePrice volatility timeStep shocks
          ≤ (initQuotes (initPriceWalk basePrice volatility timeStep shocks)).2) ∧
      (∀ prev vol sent imp ts shock : ℝ,
        0.01 ≤ generateRealisticPrice prev vol sent imp ts shock ∧
          (tickQuotes (generateRealisticPrice prev vol sent imp ts shock)).1
            ≤ generateRealisticPrice prev vol sent imp ts shock ∧
          generateRealisticPrice prev vol sent imp ts shock
            ≤ (tickQuotes (generateRealisticPrice prev vol sent imp ts shock)).2) := by
  constructor
  · have hp := initPriceWalk_pos basePrice volatility timeStep shocks hbase
    refine ⟨hp, ?_, ?_⟩
    · show initPriceWalk basePrice volatility timeStep shocks * 0.9995 ≤ _
      nlinarith
    · show _ ≤ initPriceWalk basePrice volatility timeStep shocks * 1.0005
      nlinarith
  · intro prev vol sent imp ts shock
    have hg := generateRealisticPrice_ge prev vol sent imp ts shock
    refine ⟨hg, ?_, ?_⟩
    · show generateRealisticPrice prev vol sent imp ts shock
          - generateRealisticPrice prev vol sent imp ts shock * 0.0003 ≤ _
      nlinarith
    · show _ ≤ generateRealisticPrice prev vol sent imp ts shock
          + generateRealisticPrice prev vol sent imp ts shock * 0.0003
      nlinarith

/-- C4 witness: the bounds instantiated at Apple's configured base price
182.63, volatility 0.22, the 500 ms time step, and an empty shock list. -/
theorem price_and_quote_bounds_witness :
    (0 : ℝ) < 182.63 ∧
      ((0 < initPriceWalk 182.63 0.22 (1 / 252 / 390 / 2) [] ∧
          (initQuotes (initPriceWalk 182.63 0.22 (1 / 252 / 390 / 2) [])).1
            ≤ initPriceWalk 182.63 0.22 (1 / 252 / 390 / 2) [] ∧
          initPriceWalk 182.63 0.22 (1 / 252 / 390 / 2) []
            ≤ (initQuotes (initPriceWalk 182.63 0.22 (1 / 252 / 390 / 2) [])).2) ∧
        (∀ prev vol sent imp ts shock : ℝ,
          0.01 ≤ generateRealisticPrice prev vol sent imp ts shock ∧
            (tickQuotes (generateRealisticPrice prev vol sent imp ts shock)).1
              ≤ generateRealisticPrice prev vol sent imp ts shock ∧
            generateRealisticPrice prev vol sent imp ts shock
              ≤ (tickQuotes (generateRealisticPrice prev vol sent imp ts shock)).2)) :=
  ⟨by norm_num, price_and_quote_bounds 182.63 0.22 (1 / 252 / 390 / 2) [] (by norm_num)⟩

end PriceProcess

namespace Progression

/-- C10: when the current level's mission predicate holds, the refresh
advances the level by exactly 1 and appends the reward badge only if it is
not already present (re-satisfying an already-completed mission can never
duplicate the badge: its count afterwards is `max(previous count, 1)`);
and for every state — predicate true or false — the level and the badge
set are monotonically non-decreasing. -/
theorem evaluateMissions_spec {σ : Type} (missions : ℕ → Option (Mission σ))
    (snap : σ) (p : State) (m : Mission σ)
    (hm : missions p.level = some m) (hp : m.predicate snap = true) :
    ((evaluateMissions missions snap p).level = p.level + 1) ∧
      (m.badge ∈ p.badges → (evaluateMissions missions snap p).badges = p.badges) ∧
      (m.badge ∉ p.badges →
        (evaluateMissions missions snap p).badges = p.badges ++ [m.badge]) ∧
      ((evaluateMissions missions snap p).badges.count m.badge
        = max (p.badges.count m.badge) 1) ∧
      (∀ q : State, q.level ≤ (evaluateMissions missions snap q).level ∧
        ∀ b ∈ q.badges, b ∈ (evaluateMissions missions snap q).badges) := by
  refine ⟨?_, ?_, ?_, ?_, ?_⟩
  · simp [evaluateMissions, hm, hp]
  · intro hb
    simp [evaluateMissions, hm, hp, hb]
  · intro hb
    simp [evaluateMissions, hm, hp, hb]
  · by_cases hb : m.badge ∈ p.badges
    · have hc : 1 ≤ p.badges.count m.badge := List.count_pos_iff.mpr hb
      simp only [evaluateMissions, hm, hp, if_true, if_pos hb]
      omega
    · have hc : p.badges.count m.badge = 0 := List.count_eq_zero.mpr hb
      simp only [evaluateMissions, hm, hp, if_true, if_neg hb]
      simp [hc]
  · intro q
    unfold evaluateMissions
    cases missions q.level with
    | none => exact ⟨le_refl _, fun b hb => hb⟩
    | some m2 =>
      by_cases hpred : m2.predicate snap = true
      · simp only [hpred, if_true]
        refine ⟨Nat.le_succ _, fun b hb => ?_⟩
        by_cases hb2 : m2.badge ∈ q.badges
        · simpa [hb2] using hb
        · simp only [if_neg hb2]
          exact List.mem_append_left _ hb
      · simp only [hpred]
        exact ⟨le_refl _, fun b hb => hb⟩

/-- C10 witness: a single mission at level 1 with an always-true predicate,
evaluated from level 1 with no badges. -/
theorem evaluateMissions_spec_witness :
    ((fun l => if l = 1 then some ⟨fun _ => true, "diversified"⟩ else none :
        ℕ → Option (Mission Unit)) (⟨1, []⟩ : State).level
      = some ⟨fun _ => true, "diversified"⟩) ∧
      ((⟨fun _ => true, "diversified"⟩ : Mission Unit).predicate () = true) ∧
      (((evaluateMissions
            (fun l => if l = 1 then some ⟨fun _ => true, "diversified"⟩ else none)
            () ⟨1, []⟩).level = 1 + 1) ∧
        (("diversified" : String) ∈ ([] : List String) →
          (evaluateMissions
              (fun l => if l = 1 then some ⟨fun _ => true, "diversified"⟩ else none)
              () ⟨1, []⟩).badges = []) ∧
        (("diversified" : String) ∉ ([] : List String) →
          (evaluateMissions
              (fun l => if l = 1 then some ⟨fun _ => true, "diversified"⟩ else none)
              () ⟨1, []⟩).badges = [] ++ ["diversified"]) ∧
        ((evaluateMissions
            (fun l => if l = 1 then some ⟨fun _ => true, "diversified"⟩ else none)
            () ⟨1, []⟩).badges.count "diversified"
          = max (([] : List String).count "diversified") 1) ∧
        (∀ q : State,
          q.level ≤ (evaluateMissions
              (fun l => if l = 1 then some ⟨fun _ => true, "diversified"⟩ else none)
              () q).level ∧
          ∀ b ∈ q.badges, b ∈ (evaluateMissions
              (fun l => if l = 1 then some ⟨fun _ => true, "diversified"⟩ else none)
              () q).badges)) :=
  ⟨rfl, rfl,
    evaluateMissions_spec
      (fun l => if l = 1 then some ⟨fun _ => true, "diversified"⟩ else none)
      () ⟨1, []⟩ ⟨fun _ => true, "diversified"⟩ rfl rfl⟩

end Progression


